import Mathlib

/-!
Verification development for the Fibulopedia data-loading and search core.

The Python source is embedded shallowly:

* `PyVal` models the JSON-derived Python values handled by the loaders
  (`None`, `bool`, `int`, `str`, `list`, `dict`); floats do not occur in the
  claims under study and are omitted from the value universe.
* Functions from `src/services/data_loader.py`, `src/services/monsters_service.py`
  and `src/services/server_info_service.py` keep their Python names.
* File I/O is modelled by `ReadRes` (missing file / I/O error / contents);
  `json.dump`/`json.load` are modelled by an executable serializer and parser
  over the JSON fragment relevant to the claims.
-/

/-- Model of the Python values produced by `json.load` and handled by the
loaders: `None`, booleans, integers, strings, lists and (insertion-ordered)
dicts.  Dicts are association lists; Python guarantees key uniqueness, which
the embedding does not force globally but assumes where it matters. -/
inductive PyVal where
  | none
  | bool (b : Bool)
  | int (n : Int)
  | str (s : String)
  | list (xs : List PyVal)
  | dict (kvs : List (String × PyVal))

/-- An object (Python dict backing a JSON record): keys to values. -/
abbrev Obj := List (String × PyVal)

/-- A single-quote character, used by the Python `repr` rendering. -/
def sQuote : String := "\x27"

mutual

/-- Model of Python `repr` on the embedded values (string quoting is
approximated with plain single quotes; the claims never inspect it). -/
def pyReprV : PyVal → String
  | .none => "None"
  | .bool b => if b then "True" else "False"
  | .int n => toString n
  | .str s => sQuote ++ s ++ sQuote
  | .list xs => "[" ++ pyReprList xs ++ "]"
  | .dict kvs => "\x7b" ++ pyReprDict kvs ++ "\x7d"

/-- Comma-separated `repr` of list elements. -/
def pyReprList : List PyVal → String
  | [] => ""
  | [v] => pyReprV v
  | v :: vs => pyReprV v ++ ", " ++ pyReprList vs

/-- Comma-separated `repr` of dict entries. -/
def pyReprDict : List (String × PyVal) → String
  | [] => ""
  | [kv] => sQuote ++ kv.1 ++ sQuote ++ ": " ++ pyReprV kv.2
  | kv :: kvs =>
      sQuote ++ kv.1 ++ sQuote ++ ": " ++ pyReprV kv.2 ++ ", " ++ pyReprDict kvs

end

/-- Model of Python `str()` on the embedded values. -/
def pyStr : PyVal → String
  | .none => "None"
  | .bool b => if b then "True" else "False"
  | .int n => toString n
  | .str s => s
  | .list xs => pyReprV (.list xs)
  | .dict kvs => pyReprV (.dict kvs)

/-- Model of Python truthiness (`bool(v)`) as used in `if not data:` guards. -/
def pyTruthy : PyVal → Bool
  | .none => false
  | .bool b => b
  | .int n => n != 0
  | .str s => s != ""
  | .list xs => !xs.isEmpty
  | .dict kvs => !kvs.isEmpty

/-- Key membership test, Python `key in dct`. -/
def hasKey (d : Obj) (k : String) : Bool :=
  d.any (fun kv => kv.1 == k)

/-- Python `dct[key]` / `dct.get(key)`: value of the first matching key. -/
def dictGet (d : Obj) (k : String) : Option PyVal :=
  (d.find? (fun kv => kv.1 == k)).map (fun kv => kv.2)

/-- Python `dct.get(key, default)`. -/
def dictGetD (d : Obj) (k : String) (default : PyVal) : PyVal :=
  (dictGet d k).getD default

/-- Whitespace stripped by Python `int(str)` before parsing. -/
def isPySpace (c : Char) : Bool :=
  (c == ' ' || c == Char.ofNat 11) ||
    (c == '\t' || c == '\n') ||
    (c == '\r' || c == Char.ofNat 12)

/-- Digit accumulation for Python `int(str)`, allowing single underscores
between digits (as Python does). -/
def pyDigitsGo (acc : Nat) : List Char → Option Nat
  | [] => some acc
  | c :: rest =>
    if c.isDigit then pyDigitsGo (acc * 10 + (c.toNat - 48)) rest
    else if c == '_' then
      match rest with
      | d :: rest2 =>
          if d.isDigit then pyDigitsGo (acc * 10 + (d.toNat - 48)) rest2 else none
      | [] => none
    else none

/-- Parse an unsigned decimal literal the way Python `int(str)` accepts it. -/
def pyDigits : List Char → Option Nat
  | [] => none
  | c :: rest => if c.isDigit then pyDigitsGo (c.toNat - 48) rest else none

/-- Model of Python `int(s)` for a string `s`: strip surrounding whitespace,
accept an optional sign followed by a decimal literal; `none` models the
`ValueError` raised otherwise. -/
def pyStrToInt (s : String) : Option Int :=
  let cs := ((s.data.dropWhile isPySpace).reverse.dropWhile isPySpace).reverse
  match cs with
  | '+' :: ds => (pyDigits ds).map (fun n => (n : Int))
  | '-' :: ds => (pyDigits ds).map (fun n => -(n : Int))
  | ds => (pyDigits ds).map (fun n => (n : Int))

/-! ## `src/services/data_loader.py` -/

/-- Embedding of `validate_required_fields(data, required_fields, entity_name)`:
collect the required fields absent from `data`; valid iff none are missing.
The `entity_name` argument only feeds the log message. -/
def validate_required_fields (data : Obj) (required_fields : List String)
    (entity_name : String := "entity") : Bool :=
  let missing_fields := required_fields.filter (fun field => !hasKey data field)
  let _ := entity_name
  missing_fields.isEmpty

/-- Embedding of `safe_int(value, default=0)`: Python `int(value)` when that
succeeds, otherwise the default.  `int()` succeeds on ints, bools and integral
strings; it raises `TypeError` on `None`/lists/dicts and `ValueError` on
non-integral strings, both caught by the source. -/
def safe_int (value : PyVal) (default : Int := 0) : Int :=
  match value with
  | .int n => n
  | .bool b => if b then 1 else 0
  | .str s => (pyStrToInt s).getD default
  | .none => default
  | .list _ => default
  | .dict _ => default

/-- Embedding of `safe_list(value, default=None)`. -/
def safe_list (value : PyVal) (default : Option (List PyVal) := Option.none) :
    List PyVal :=
  let d := default.getD []
  match value with
  | .list xs => xs
  | .none => d
  | v => [v]

/-- Result of attempting to read a file: the path does not exist, opening or
reading raises an I/O error, or the file's textual contents are obtained. -/
inductive ReadRes where
  | missing
  | ioError
  | ok (contents : String)

/-- Embedding of `load_json(file_path)`.  The filesystem interaction is
abstracted into a `ReadRes`; `json.load` is abstracted into a `parse`
function returning `Option` (`Option.none` models `JSONDecodeError`).  Every
failure path returns `Option.none` instead of raising. -/
def load_json (file : ReadRes) (parse : String → Option PyVal) : Option PyVal :=
  match file with
  | .missing => Option.none
  | .ioError => Option.none
  | .ok contents => parse contents

/-! ## `src/services/monsters_service.py` -/

/-- The `Monster` record (`src/models.py` per spec §3: a plain immutable
value record; construction never fails). -/
structure Monster where
  id : String
  name : String
  hp : Int
  exp : Int
  loot : String
  location : String
  difficulty : Option PyVal

/-- The required-field set checked by `load_monsters`. -/
def monsterRequiredFields : List String :=
  ["id", "name", "hp", "exp", "loot", "location"]

/-- The `Monster(...)` construction performed on a validated record:
`str` on id/name/loot/location, `safe_int` on hp/exp, `.get` on difficulty. -/
def mkMonster (item : Obj) : Monster :=
  { id := pyStr (dictGetD item "id" .none)
    name := pyStr (dictGetD item "name" .none)
    hp := safe_int (dictGetD item "hp" .none)
    exp := safe_int (dictGetD item "exp" .none)
    loot := pyStr (dictGetD item "loot" .none)
    location := pyStr (dictGetD item "location" .none)
    difficulty := dictGet item "difficulty" }

/-- Embedding of `load_monsters()` over the decoded source list of records.
The source guards `if not data or not isinstance(data, list)` (an empty list
short-circuits to `[]`, which the loop reproduces); each record is kept iff
`validate_required_fields` passes; the construction `try` never fails on a
mapping record because `str` and `safe_int` are total. -/
def load_monsters (data : List Obj) : List Monster :=
  if data.isEmpty then []
  else
    data.filterMap (fun item =>
      if validate_required_fields item monsterRequiredFields "Monster"
      then some (mkMonster item)
      else Option.none)

/-- Embedding of `get_monster_by_id(monster_id)`: first loaded monster whose
id equals the argument. -/
def get_monster_by_id (data : List Obj) (monster_id : String) : Option Monster :=
  (load_monsters data).find? (fun monster => monster.id == monster_id)

/-- Python `needle in haystack` on strings: substring containment. -/
def pyIn (needle haystack : String) : Bool :=
  decide (needle.data <:+: haystack.data)

/-- Python `s.lower()` (character-wise lowercasing, ASCII-faithful). -/
def pyLower (s : String) : String :=
  String.mk (s.data.map Char.toLower)

/-- Embedding of `search_monsters(query)`: empty query returns the full load;
otherwise keep the monsters whose lowered name, location or loot contains the
lowered query. -/
def search_monsters (data : List Obj) (query : String) : List Monster :=
  if query == "" then load_monsters data
  else
    let monsters := load_monsters data
    let query_lower := pyLower query
    monsters.filter (fun monster =>
      pyIn query_lower (pyLower monster.name) ||
      pyIn query_lower (pyLower monster.location) ||
      pyIn query_lower (pyLower monster.loot))

/-! ## `src/services/server_info_service.py` -/

/-- The `ServerInfo` record (`src/models.py` per spec §3): a plain value
record.  Optional fields keep the raw value, defaulting to `None`. -/
structure ServerInfo where
  id : String
  name : String
  description : String
  rates : PyVal
  version : String
  website : PyVal
  discord : PyVal
  additional_info : PyVal

/-- Embedding of `load_server_info()` over the decoded document (`Option.none`
models `load_json` returning `None`).  The guard
`if not data or not isinstance(data, dict)` rejects falsy or non-dict
documents; otherwise every field is read with `.get` and a default. -/
def load_server_info (data : Option PyVal) : Option ServerInfo :=
  match data with
  | Option.none => Option.none
  | some v =>
    if !pyTruthy v then Option.none
    else
      match v with
      | .dict d =>
          some
            { id := pyStr (dictGetD d "id" (.str "server_001"))
              name := pyStr (dictGetD d "name" (.str "Fibula Project"))
              description := pyStr (dictGetD d "description" (.str ""))
              rates := dictGetD d "rates" (.dict [])
              version := pyStr (dictGetD d "version" (.str "7.1"))
              website := dictGetD d "website" .none
              discord := dictGetD d "discord" .none
              additional_info := dictGetD d "additional_info" .none }
      | _ => Option.none

/-! ## Concrete example data (used by witnesses and counterexamples) -/

/-- A fully valid monster record. -/
def exRecord : Obj :=
  [("id", .str "m1"), ("name", .str "Rat"), ("hp", .int 20), ("exp", .int 5),
   ("loot", .str "gold_coins"), ("location", .str "Thais")]

/-- A one-record source list. -/
def exData : List Obj := [exRecord]

/-- First of two records sharing the id `m1`. -/
def dupRecord1 : Obj :=
  [("id", .str "m1"), ("name", .str "First"), ("hp", .int 1), ("exp", .int 1),
   ("loot", .str "a"), ("location", .str "b")]

/-- Second of two records sharing the id `m1`. -/
def dupRecord2 : Obj :=
  [("id", .str "m1"), ("name", .str "Second"), ("hp", .int 2), ("exp", .int 2),
   ("loot", .str "c"), ("location", .str "d")]

/-- A source list with a duplicated id. -/
def dupData : List Obj := [dupRecord1, dupRecord2]

/-- A record whose six required keys are all present but bound to JSON null. -/
def nullRecord : Obj :=
  [("id", PyVal.none), ("name", PyVal.none), ("hp", PyVal.none),
   ("exp", PyVal.none), ("loot", PyVal.none), ("location", PyVal.none)]

/-! ## Helper lemmas -/

theorem filter_guard_filterMap {α β : Type} (p : α → Bool) (f : α → β) (l : List α) :
    l.filterMap (fun a => if p a then some (f a) else Option.none)
      = (l.filter p).map f := by
  induction l with
  | nil => rfl
  | cons a t ih => by_cases h : p a <;> simp [h, ih]

theorem filter_not_isEmpty_eq_all {α : Type} (p : α → Bool) (l : List α) :
    (l.filter (fun a => !p a)).isEmpty = l.all p := by
  induction l with
  | nil => rfl
  | cons a t ih => by_cases h : p a <;> simp [h, ih]

theorem validate_eq_all (item : Obj) (req : List String) (en : String) :
    validate_required_fields item req en = req.all (fun f => hasKey item f) :=
  filter_not_isEmpty_eq_all (fun f => hasKey item f) req

theorem load_monsters_eq_filter_map (data : List Obj) :
    load_monsters data
      = (data.filter (fun item =>
          validate_required_fields item monsterRequiredFields "Monster")).map mkMonster := by
  by_cases h : data.isEmpty = true
  · have h0 : data = [] := List.isEmpty_iff.mp h
    subst h0; rfl
  · unfold load_monsters
    rw [if_neg h]
    exact filter_guard_filterMap _ _ _

theorem length_filter_split {α : Type} (p : α → Bool) (l : List α) :
    (l.filter p).length + (l.filter (fun a => !p a)).length = l.length := by
  induction l with
  | nil => rfl
  | cons a t ih => by_cases h : p a <;> simp [h] <;> omega

theorem hasKey_of_dictGet {item : Obj} {f : String} {v : PyVal}
    (h : dictGet item f = some v) : hasKey item f = true := by
  unfold dictGet at h
  cases hfind : item.find? (fun kv => kv.1 == f) with
  | none => rw [hfind] at h; cases h
  | some kv =>
    have hmem : kv ∈ item := List.mem_of_find?_eq_some hfind
    have hp := @List.find?_some _ _ _ _ hfind
    exact List.any_eq_true.mpr ⟨kv, hmem, hp⟩

theorem dictGet_eq_none_of_not_hasKey {d : Obj} {k : String}
    (h : hasKey d k = false) : dictGet d k = Option.none := by
  unfold dictGet
  have hfind : d.find? (fun kv => kv.1 == k) = Option.none := by
    rw [List.find?_eq_none]
    intro x hx hpx
    unfold hasKey at h
    have : d.any (fun kv => kv.1 == k) = true := List.any_eq_true.mpr ⟨x, hx, hpx⟩
    rw [this] at h
    cases h
  rw [hfind]
  rfl

/-! ## Claims about `load_monsters` and the monster queries -/

/-- Claim C1: `load_monsters` returns exactly one `Monster` per source record
containing all six required keys, in source order; records missing at least
one required key are excluded, and the result length is the source length
minus the number of invalid records. -/
theorem claim_C1_load_monsters_valid_records (data : List Obj) :
    load_monsters data
        = (data.filter (fun item =>
            monsterRequiredFields.all (fun f => hasKey item f))).map mkMonster
    ∧ (load_monsters data).length
        = data.length
          - (data.filter (fun item =>
              !(monsterRequiredFields.all (fun f => hasKey item f)))).length := by
  have h1 : load_monsters data
      = (data.filter (fun item =>
          monsterRequiredFields.all (fun f => hasKey item f))).map mkMonster := by
    rw [load_monsters_eq_filter_map]
    congr 1
    apply List.filter_congr
    intro a _
    exact validate_eq_all a monsterRequiredFields "Monster"
  refine ⟨h1, ?_⟩
  rw [h1, List.length_map]
  have h2 := length_filter_split
    (fun item => monsterRequiredFields.all (fun f => hasKey item f)) data
  omega

/-- Claim C2: for a non-empty query, `search_monsters` returns exactly the
loaded monsters whose lowered name, location or loot contains the lowered
query as a substring, in load order (a sublist of the full load). -/
theorem claim_C2_search_monsters_filter (data : List Obj) (query : String)
    (hq : query ≠ "") :
    search_monsters data query
        = (load_monsters data).filter (fun m =>
            decide ((pyLower query).data <:+: (pyLower m.name).data) ||
            decide ((pyLower query).data <:+: (pyLower m.location).data) ||
            decide ((pyLower query).data <:+: (pyLower m.loot).data))
    ∧ List.Sublist (search_monsters data query) (load_monsters data) := by
  have hb : (query == "") = false := beq_eq_false_iff_ne.mpr hq
  constructor
  · unfold search_monsters
    rw [if_neg (by simp [hb])]
    rfl
  · unfold search_monsters
    rw [if_neg (by simp [hb])]
    exact List.filter_sublist _

/-- Witness for claim C2 at a concrete catalog and query. -/
theorem claim_C2_witness :
    ("GOLD" ≠ "")
    ∧ (search_monsters exData "GOLD"
          = (load_monsters exData).filter (fun m =>
              decide ((pyLower "GOLD").data <:+: (pyLower m.name).data) ||
              decide ((pyLower "GOLD").data <:+: (pyLower m.location).data) ||
              decide ((pyLower "GOLD").data <:+: (pyLower m.loot).data))
        ∧ List.Sublist (search_monsters exData "GOLD") (load_monsters exData)) :=
  ⟨by decide, claim_C2_search_monsters_filter exData "GOLD" (by decide)⟩

/-- Claim C3, counterexample: a whitespace-only (blank but non-empty) query is
not special-cased by the code; on a catalog whose fields contain no space the
search returns nothing rather than the full collection. -/
theorem claim_C3_counterexample :
    search_monsters exData " " ≠ load_monsters exData := by
  intro h
  have hlen := congrArg List.length h
  have h1 : (search_monsters exData " ").length = 0 := rfl
  have h2 : (load_monsters exData).length = 1 := rfl
  rw [h1, h2] at hlen
  exact Nat.zero_ne_one hlen

/-- Claim C3 as amended: only the exactly-empty query is the identity filter;
`search_monsters ""` returns the full loaded collection unchanged. -/
theorem claim_C3_empty_query_identity (data : List Obj) :
    search_monsters data "" = load_monsters data := rfl

/-! ## Claims about the safe coercions -/

/-- Claim C4: `safe_int` converts directly int-convertible values (ints,
bools, integral strings such as `"42"`); for values that are not directly
int-convertible (`"42.7"`, `None`, lists, dicts) it returns the supplied
default; being a total function, it never raises. -/
theorem claim_C4_safe_int :
    (∀ (n d : Int), safe_int (.int n) d = n)
    ∧ (∀ (b : Bool) (d : Int), safe_int (.bool b) d = if b then 1 else 0)
    ∧ (∀ (s : String) (d : Int), safe_int (.str s) d = (pyStrToInt s).getD d)
    ∧ (∀ d : Int, safe_int .none d = d)
    ∧ (∀ (xs : List PyVal) (d : Int), safe_int (.list xs) d = d)
    ∧ (∀ (kvs : List (String × PyVal)) (d : Int), safe_int (.dict kvs) d = d)
    ∧ safe_int (.str "42") = 42
    ∧ safe_int (.str "42.7") 0 = 0
    ∧ safe_int .none 10 = 10 :=
  ⟨fun _ _ => rfl, fun _ _ => rfl, fun _ _ => rfl, fun _ => rfl,
   fun _ _ => rfl, fun _ _ => rfl, rfl, rfl, rfl⟩

/-- Claim C5: `safe_list` returns a list input unchanged, returns the default
(empty list when none is supplied) for `None`, and wraps every other value in
a one-element list. -/
theorem claim_C5_safe_list :
    (∀ (xs : List PyVal) (d : Option (List PyVal)), safe_list (.list xs) d = xs)
    ∧ (∀ d : List PyVal, safe_list .none (some d) = d)
    ∧ safe_list .none Option.none = []
    ∧ (∀ (s : String) (d : Option (List PyVal)), safe_list (.str s) d = [.str s])
    ∧ (∀ (n : Int) (d : Option (List PyVal)), safe_list (.int n) d = [.int n])
    ∧ (∀ (b : Bool) (d : Option (List PyVal)), safe_list (.bool b) d = [.bool b])
    ∧ (∀ (kvs : List (String × PyVal)) (d : Option (List PyVal)),
        safe_list (.dict kvs) d = [.dict kvs]) :=
  ⟨fun _ _ => rfl, fun _ => rfl, rfl, fun _ _ => rfl, fun _ _ => rfl,
   fun _ _ => rfl, fun _ _ => rfl⟩

/-! ## Claims about lookups and the server-info loader -/

/-- Claim C8: cross-record id uniqueness is not enforced (every valid record
survives loading, whatever its id); `get_monster_by_id` returns the first
loaded monster carrying the id, and returns `none` exactly when no loaded
monster carries it. -/
theorem claim_C8_get_monster_by_id (data : List Obj) (monster_id : String) :
    (load_monsters data
        = (data.filter (fun item =>
            validate_required_fields item monsterRequiredFields "Monster")).map mkMonster)
    ∧ (get_monster_by_id data monster_id = Option.none
        ↔ ∀ m ∈ load_monsters data, m.id ≠ monster_id)
    ∧ (∀ pre m post, load_monsters data = pre ++ m :: post →
        (∀ m2 ∈ pre, m2.id ≠ monster_id) → m.id = monster_id →
        get_monster_by_id data monster_id = some m) := by
  refine ⟨load_monsters_eq_filter_map data, ?_, ?_⟩
  · unfold get_monster_by_id
    rw [List.find?_eq_none]
    constructor
    · intro h m hm
      have := h m hm
      simpa using this
    · intro h m hm
      simpa using h m hm
  · intro pre m post hsplit hpre hm
    unfold get_monster_by_id
    rw [hsplit, List.find?_append]
    have hpre' : pre.find? (fun monster => monster.id == monster_id) = Option.none := by
      rw [List.find?_eq_none]
      intro x hx
      simpa using hpre x hx
    rw [hpre', List.find?_cons_of_pos _ (by simpa using hm)]
    rfl

/-- Witness for claim C8: two records share id `m1`; the lookup returns the
monster built from the first of them. -/
theorem claim_C8_witness :
    get_monster_by_id dupData "m1" = some (mkMonster dupRecord1) :=
  (claim_C8_get_monster_by_id dupData "m1").2.2 [] (mkMonster dupRecord1)
    [mkMonster dupRecord2] rfl (by intro m2 hm; cases hm) rfl

/-- Claim C9: required-field validation tests key presence only; a record
whose required keys are present but bound to JSON null passes validation and
is loaded, with null hp/exp coerced to 0 and null id/name/loot/location
stringified to `"None"`. -/
theorem claim_C9_null_valued_fields (item : Obj)
    (h : ∀ f ∈ monsterRequiredFields, dictGet item f = some PyVal.none) :
    validate_required_fields item monsterRequiredFields "Monster" = true
    ∧ load_monsters [item]
        = [{ id := "None", name := "None", hp := 0, exp := 0, loot := "None",
             location := "None", difficulty := dictGet item "difficulty" }] := by
  have hk : ∀ f ∈ monsterRequiredFields, hasKey item f = true := by
    intro f hf
    exact hasKey_of_dictGet (h f hf)
  have hval : validate_required_fields item monsterRequiredFields "Monster" = true := by
    rw [validate_eq_all]
    exact List.all_eq_true.mpr hk
  have hks : ∀ f ∈ monsterRequiredFields, dictGetD item f .none = PyVal.none := by
    intro f hf
    unfold dictGetD
    rw [h f hf]
    rfl
  refine ⟨hval, ?_⟩
  have h1 : load_monsters [item] = [mkMonster item] := by
    rw [load_monsters_eq_filter_map]
    simp [List.filter, hval]
  rw [h1]
  congr 1
  unfold mkMonster
  rw [hks "id" (by simp [monsterRequiredFields]),
      hks "name" (by simp [monsterRequiredFields]),
      hks "hp" (by simp [monsterRequiredFields]),
      hks "exp" (by simp [monsterRequiredFields]),
      hks "loot" (by simp [monsterRequiredFields]),
      hks "location" (by simp [monsterRequiredFields])]
  rfl

/-- Witness for claim C9 at a concrete all-null record. -/
theorem claim_C9_witness :
    (∀ f ∈ monsterRequiredFields, dictGet nullRecord f = some PyVal.none)
    ∧ (validate_required_fields nullRecord monsterRequiredFields "Monster" = true
        ∧ load_monsters [nullRecord]
            = [{ id := "None", name := "None", hp := 0, exp := 0, loot := "None",
                 location := "None", difficulty := dictGet nullRecord "difficulty" }]) := by
  have h : ∀ f ∈ monsterRequiredFields, dictGet nullRecord f = some PyVal.none := by
    intro f hf
    fin_cases hf <;> rfl
  exact ⟨h, claim_C9_null_valued_fields nullRecord h⟩

/-- Decision of Python `isinstance(v, dict)` on the embedded values. -/
def isDictB : PyVal → Bool
  | .dict _ => true
  | _ => false

/-- Claim C10: `load_server_info` performs no required-field validation; a
non-empty mapping always yields a `ServerInfo`, with the documented defaults
substituted for absent fields; absent, non-mapping and empty-mapping
documents yield `none`. -/
theorem claim_C10_load_server_info :
    (load_server_info Option.none = Option.none)
    ∧ (∀ v : PyVal, pyTruthy v = false → load_server_info (some v) = Option.none)
    ∧ (∀ v : PyVal, isDictB v = false → load_server_info (some v) = Option.none)
    ∧ (∀ d : Obj, d ≠ [] →
        load_server_info (some (.dict d))
          = some { id := pyStr (dictGetD d "id" (.str "server_001")),
                   name := pyStr (dictGetD d "name" (.str "Fibula Project")),
                   description := pyStr (dictGetD d "description" (.str "")),
                   rates := dictGetD d "rates" (.dict []),
                   version := pyStr (dictGetD d "version" (.str "7.1")),
                   website := dictGetD d "website" .none,
                   discord := dictGetD d "discord" .none,
                   additional_info := dictGetD d "additional_info" .none }
        ∧ (hasKey d "id" = false →
            pyStr (dictGetD d "id" (.str "server_001")) = "server_001")
        ∧ (hasKey d "name" = false →
            pyStr (dictGetD d "name" (.str "Fibula Project")) = "Fibula Project")
        ∧ (hasKey d "version" = false →
            pyStr (dictGetD d "version" (.str "7.1")) = "7.1")
        ∧ (hasKey d "description" = false →
            pyStr (dictGetD d "description" (.str "")) = "")
        ∧ (hasKey d "rates" = false → dictGetD d "rates" (.dict []) = .dict [])) := by
  refine ⟨rfl, ?_, ?_, ?_⟩
  · intro v h
    simp [load_server_info, h]
  · intro v h
    cases v <;> simp_all [load_server_info, isDictB]
  · intro d hd
    have hdef : ∀ (k : String) (dv : PyVal), hasKey d k = false → dictGetD d k dv = dv := by
      intro k dv h
      unfold dictGetD
      rw [dictGet_eq_none_of_not_hasKey h]
      rfl
    refine ⟨?_, ?_, ?_, ?_, ?_, ?_⟩
    · have hne : ¬((!pyTruthy (PyVal.dict d)) = true) := by
        simp [pyTruthy, List.isEmpty_iff, hd]
      simp only [load_server_info]
      rw [if_neg hne]
    · intro h; rw [hdef _ _ h]; rfl
    · intro h; rw [hdef _ _ h]; rfl
    · intro h; rw [hdef _ _ h]; rfl
    · intro h; rw [hdef _ _ h]; rfl
    · intro h; rw [hdef _ _ h]

/-- Witness for claim C10: a one-field mapping is loaded with every default
substituted; an empty mapping and a non-mapping document yield `none`. -/
theorem claim_C10_witness :
    load_server_info (some (PyVal.dict [("name", PyVal.str "X")]))
      = some { id := "server_001", name := "X", description := "",
               rates := PyVal.dict [], version := "7.1", website := PyVal.none,
               discord := PyVal.none, additional_info := PyVal.none }
    ∧ load_server_info (some (PyVal.dict [])) = Option.none
    ∧ load_server_info (some (PyVal.bool true)) = Option.none := by
  refine ⟨?_, ?_, ?_⟩
  · have h := claim_C10_load_server_info.2.2.2 [("name", PyVal.str "X")] (by simp)
    rw [h.1]
    rfl
  · exact claim_C10_load_server_info.2.1 (PyVal.dict []) rfl
  · exact claim_C10_load_server_info.2.2.1 (PyVal.bool true) rfl

/-! ## JSON serialization model (`json.dump` with `indent=2`, `json.load`)

The round-trip claim concerns JSON-serializable mappings and sequences of
primitives, so the serializer and parser cover that fragment: a document is
either an array of primitives or an object mapping strings to primitives. -/

/-- JSON primitive values (floats do not occur in the claims). -/
inductive JPrim where
  | null
  | bool (b : Bool)
  | int (n : Int)
  | str (s : String)

/-- JSON document shapes covered by the round-trip claim. -/
inductive JDoc where
  | arr (xs : List JPrim)
  | obj (kvs : List (String × JPrim))

/-- The `json.load` image of a primitive. -/
def primToPyVal : JPrim → PyVal
  | .null => .none
  | .bool b => .bool b
  | .int n => .int n
  | .str s => .str s

/-- The `json.load` image of a document. -/
def docToPyVal : JDoc → PyVal
  | .arr xs => .list (xs.map primToPyVal)
  | .obj kvs => .dict (kvs.map (fun kv => (kv.1, primToPyVal kv.2)))

/-- Decimal digit character for `0 ≤ m ≤ 9`. -/
def digitChar (m : Nat) : Char := Char.ofNat (48 + m)

/-- Lowercase hexadecimal digit character for `0 ≤ m ≤ 15`. -/
def hexDigitOf (m : Nat) : Char :=
  if m < 10 then Char.ofNat (48 + m) else Char.ofNat (87 + m)

/-- The six-character `\u00XY` escape emitted for a control character whose
code point is `n < 32`. -/
def hexEscape (n : Nat) : List Char :=
  '\\' :: 'u' :: '0' :: '0' :: hexDigitOf (n / 16) :: [hexDigitOf (n % 16)]

/-- Fuel-driven decimal rendering of a natural number (most significant digit
first); `natToChars` supplies enough fuel for full reduction. -/
def natToCharsAux : Nat → Nat → List Char
  | 0, _ => []
  | fuel + 1, n =>
    if n < 10 then [digitChar n]
    else natToCharsAux fuel (n / 10) ++ [digitChar (n % 10)]

/-- Decimal rendering of a natural number. -/
def natToChars (n : Nat) : List Char := natToCharsAux (n + 1) n

/-- Decimal rendering of an integer, as `json.dump` prints it. -/
def intToChars (n : Int) : List Char :=
  if n < 0 then '-' :: natToChars n.natAbs else natToChars n.toNat

/-- The escape sequence (or literal character) `json.dump` emits for one
string character: `"` and `\` are escaped, the five named control characters
use their short escapes, other control characters use `\u00XX`, and
everything else is emitted verbatim (`ensure_ascii=False`). -/
def dumpChar (c : Char) : List Char :=
  if c = '"' then ['\\', '"']
  else if c = '\\' then ['\\', '\\']
  else if c = Char.ofNat 8 then ['\\', 'b']
  else if c = '\t' then ['\\', 't']
  else if c = '\n' then ['\\', 'n']
  else if c = Char.ofNat 12 then ['\\', 'f']
  else if c = '\r' then ['\\', 'r']
  else if c.toNat < 32 then hexEscape c.toNat
  else [c]

/-- Escape every character of a string body. -/
def escChars : List Char → List Char
  | [] => []
  | c :: cs => dumpChar c ++ escChars cs

/-- Serialization of one primitive. -/
def dumpPrimChars : JPrim → List Char
  | .null => "null".data
  | .bool b => if b then "true".data else "false".data
  | .int n => intToChars n
  | .str s => '"' :: (escChars s.data ++ ['"'])

/-- Array items joined by `",\n  "` (the `indent=2` item separator). -/
def dumpArrItems : List JPrim → List Char
  | [] => []
  | [p] => dumpPrimChars p
  | p :: ps => dumpPrimChars p ++ ',' :: '\n' :: ' ' :: ' ' :: dumpArrItems ps

/-- One object entry: quoted key, `": "`, value. -/
def dumpEntry (k : String) (v : JPrim) : List Char :=
  '"' :: (escChars k.data ++ ['"']) ++ ':' :: ' ' :: dumpPrimChars v

/-- Object entries joined by `",\n  "`. -/
def dumpObjItems : List (String × JPrim) → List Char
  | [] => []
  | [kv] => dumpEntry kv.1 kv.2
  | kv :: kvs => dumpEntry kv.1 kv.2 ++ ',' :: '\n' :: ' ' :: ' ' :: dumpObjItems kvs

/-- Serialization of a document exactly as `json.dump(data, f, indent=2,
ensure_ascii=False)` renders the covered fragment. -/
def dumpDocChars : JDoc → List Char
  | .arr [] => ['[', ']']
  | .arr (x :: xs) => '[' :: '\n' :: ' ' :: ' ' :: (dumpArrItems (x :: xs) ++ ['\n', ']'])
  | .obj [] => ['\x7b', '\x7d']
  | .obj (kv :: kvs) =>
      '\x7b' :: '\n' :: ' ' :: ' ' :: (dumpObjItems (kv :: kvs) ++ ['\n', '\x7d'])

/-- String form of the serialized document. -/
def dumpJson (d : JDoc) : String := String.mk (dumpDocChars d)

/-- Embedding of `save_json(file_path, data, indent=2)` on the covered
fragment: the contents written through `json.dump` and the returned success
flag (the claim presumes a writable path, so the `except` branch that returns
`False` on an I/O error is not reachable in the model). -/
def save_json (data : JDoc) : String × Bool := (dumpJson data, true)

/-- JSON insignificant whitespace. -/
def isWsChar (c : Char) : Bool :=
  (c == '\n' || c == ' ') || (c == '\r' || c == '\t')

/-- Skip insignificant whitespace. -/
def skipWs (cs : List Char) : List Char := cs.dropWhile isWsChar

/-- Value of a hexadecimal digit character. -/
def hexVal (c : Char) : Option Nat :=
  if c.isDigit then some (c.toNat - 48)
  else if 'a' ≤ c ∧ c ≤ 'f' then some (c.toNat - 87)
  else if 'A' ≤ c ∧ c ≤ 'F' then some (c.toNat - 55)
  else none

/-- Single-character escapes accepted after a backslash. -/
def unescapeChar (e : Char) : Option Char :=
  if e = '"' then some '"'
  else if e = '\\' then some '\\'
  else if e = '/' then some '/'
  else if e = 'b' then some (Char.ofNat 8)
  else if e = 't' then some '\t'
  else if e = 'n' then some '\n'
  else if e = 'f' then some (Char.ofNat 12)
  else if e = 'r' then some '\r'
  else none

/-- Decode the escape following a backslash, returning the decoded character
and the remaining input. -/
def readEsc (cs : List Char) : Option (Char × List Char) :=
  match cs with
  | [] => none
  | e :: cs2 =>
    if e = 'u' then
      match cs2 with
      | h1 :: h2 :: h3 :: h4 :: cs3 =>
        match hexVal h1, hexVal h2, hexVal h3, hexVal h4 with
        | some a, some b, some c, some d =>
            some (Char.ofNat (((a * 16 + b) * 16 + c) * 16 + d), cs3)
        | _, _, _, _ => none
      | _ => none
    else (unescapeChar e).map (fun u => (u, cs2))

/-- Fuel-driven string-body parser: consume characters until the closing
quote, decoding escapes; one fuel unit per decoded character. -/
def parseStrBodyAux : Nat → List Char → Option (List Char × List Char)
  | 0, _ => none
  | fuel + 1, cs =>
    match cs with
    | [] => none
    | c :: cs1 =>
      if c = '"' then some ([], cs1)
      else if c = '\\' then
        match readEsc cs1 with
        | some (u, cs2) => (parseStrBodyAux fuel cs2).map (fun p => (u :: p.1, p.2))
        | Option.none => none
      else (parseStrBodyAux fuel cs1).map (fun p => (c :: p.1, p.2))

/-- Parse a string body (after the opening quote) up to the closing quote. -/
def parseStrBody (cs : List Char) : Option (List Char × List Char) :=
  parseStrBodyAux cs.length cs

/-- Consume an expected literal character sequence. -/
def dropLit : List Char → List Char → Option (List Char)
  | [], cs => some cs
  | _ :: _, [] => none
  | l :: ls, c :: cs => if c = l then dropLit ls cs else none

/-- Parse a nonempty run of decimal digits into a natural number. -/
def parseNat (cs : List Char) : Option (Nat × List Char) :=
  let ds := cs.takeWhile (fun c => c.isDigit)
  if ds.isEmpty then none
  else some (ds.foldl (fun a c => a * 10 + (c.toNat - 48)) 0,
             cs.dropWhile (fun c => c.isDigit))

/-- Parse one JSON primitive. -/
def parsePrim (cs : List Char) : Option (JPrim × List Char) :=
  match cs with
  | [] => none
  | c :: rest =>
    if c = '"' then
      (parseStrBody rest).map (fun p => (JPrim.str (String.mk p.1), p.2))
    else if c = 'n' then (dropLit ['u', 'l', 'l'] rest).map (fun r => (JPrim.null, r))
    else if c = 't' then (dropLit ['r', 'u', 'e'] rest).map (fun r => (JPrim.bool true, r))
    else if c = 'f' then (dropLit ['a', 'l', 's', 'e'] rest).map (fun r => (JPrim.bool false, r))
    else if c = '-' then (parseNat rest).map (fun p => (JPrim.int (-(p.1 : Int)), p.2))
    else (parseNat (c :: rest)).map (fun p => (JPrim.int ((p.1 : Nat) : Int), p.2))

/-- Fuel-driven parser for the comma-separated items of a nonempty array,
ending at the closing bracket. -/
def parseItemsA : Nat → List Char → Option (List JPrim × List Char)
  | 0, _ => none
  | fuel + 1, cs =>
    match parsePrim cs with
    | Option.none => none
    | some (p, cs1) =>
      match skipWs cs1 with
      | [] => none
      | c :: cs2 =>
        if c = ']' then some ([p], cs2)
        else if c = ',' then
          match parseItemsA fuel (skipWs cs2) with
          | some (ps, cs3) => some (p :: ps, cs3)
          | Option.none => none
        else none

/-- Fuel-driven parser for the comma-separated entries of a nonempty object,
ending at the closing brace. -/
def parseItemsO : Nat → List Char → Option (List (String × JPrim) × List Char)
  | 0, _ => none
  | fuel + 1, cs =>
    match cs with
    | [] => none
    | c :: cs0 =>
      if c = '"' then
        match parseStrBody cs0 with
        | Option.none => none
        | some (kChars, cs1) =>
          match skipWs cs1 with
          | [] => none
          | c1 :: cs2 =>
            if c1 = ':' then
              match parsePrim (skipWs cs2) with
              | Option.none => none
              | some (v, cs3) =>
                match skipWs cs3 with
                | [] => none
                | c2 :: cs4 =>
                  if c2 = '\x7d' then some ([(String.mk kChars, v)], cs4)
                  else if c2 = ',' then
                    match parseItemsO fuel (skipWs cs4) with
                    | some (ps, cs5) => some ((String.mk kChars, v) :: ps, cs5)
                    | Option.none => none
                  else none
            else none
      else none

/-- Python-dict insertion as `json.loads` performs it entry by entry: a
repeated key keeps its original position and takes the latest value. -/
def dictInsert (acc : List (String × JPrim)) (k : String) (v : JPrim) :
    List (String × JPrim) :=
  match acc with
  | [] => [(k, v)]
  | (k0, v0) :: rest =>
      if k0 = k then (k0, v) :: rest else (k0, v0) :: dictInsert rest k v

/-- Fold parsed entries into a dict, last value winning per key. -/
def buildDict (pairs : List (String × JPrim)) : List (String × JPrim) :=
  pairs.foldl (fun acc kv => dictInsert acc kv.1 kv.2) []

/-- Parse a document (array or object) after leading whitespace. -/
def parseDocChars (cs : List Char) : Option (JDoc × List Char) :=
  match skipWs cs with
  | [] => none
  | c :: rest =>
    if c = '[' then
      match skipWs rest with
      | [] => none
      | c1 :: rest1 =>
        if c1 = ']' then some (JDoc.arr [], rest1)
        else
          (parseItemsA (c1 :: rest1).length (c1 :: rest1)).map
            (fun p => (JDoc.arr p.1, p.2))
    else if c = '\x7b' then
      match skipWs rest with
      | [] => none
      | c1 :: rest1 =>
        if c1 = '\x7d' then some (JDoc.obj [], rest1)
        else
          (parseItemsO (c1 :: rest1).length (c1 :: rest1)).map
            (fun p => (JDoc.obj (buildDict p.1), p.2))
    else none

/-- Model of `json.load` on the covered fragment: parse a document and demand
that only whitespace follows it. -/
def parseJson (s : String) : Option PyVal :=
  match parseDocChars s.data with
  | some (d, rest) =>
      if (skipWs rest).isEmpty then some (docToPyVal d) else Option.none
  | Option.none => Option.none

/-! ## Round-trip lemmas: decimal digits -/

theorem digitChar_facts :
    ∀ m, m < 10 → (digitChar m).isDigit = true ∧ (digitChar m).toNat = 48 + m := by
  decide

theorem natToCharsAux_fuel_irrel :
    ∀ (f1 : Nat), ∀ (f2 n : Nat), n < f1 → n < f2 →
      natToCharsAux f1 n = natToCharsAux f2 n := by
  intro f1
  induction f1 with
  | zero => intro f2 n h1 _; omega
  | succ f1 ih =>
    intro f2 n h1 h2
    cases f2 with
    | zero => omega
    | succ f2 =>
      by_cases h : n < 10
      · simp [natToCharsAux, h]
      · have hdiv : n / 10 < f1 := by omega
        have hdiv2 : n / 10 < f2 := by omega
        simp [natToCharsAux, h, ih f2 (n / 10) hdiv hdiv2]

theorem natToChars_unfold (n : Nat) :
    natToChars n
      = if n < 10 then [digitChar n]
        else natToChars (n / 10) ++ [digitChar (n % 10)] := by
  by_cases h : n < 10
  · simp [natToChars, natToCharsAux, h]
  · have : natToCharsAux n (n / 10) = natToCharsAux (n / 10 + 1) (n / 10) :=
      natToCharsAux_fuel_irrel n (n / 10 + 1) (n / 10) (by omega) (by omega)
    simp [natToChars, natToCharsAux, h, this]

theorem natToChars_all_digits (n : Nat) :
    ∀ c ∈ natToChars n, c.isDigit = true := by
  induction n using Nat.strong_induction_on with
  | _ n ih =>
    intro c hc
    rw [natToChars_unfold] at hc
    by_cases h : n < 10
    · rw [if_pos h] at hc
      have : c = digitChar n := by simpa using hc
      rw [this]
      exact (digitChar_facts n h).1
    · rw [if_neg h] at hc
      rcases List.mem_append.mp hc with h1 | h2
      · exact ih (n / 10) (by omega) c h1
      · have : c = digitChar (n % 10) := by simpa using h2
        rw [this]
        exact (digitChar_facts (n % 10) (by omega)).1

theorem natToChars_ne_nil (n : Nat) : natToChars n ≠ [] := by
  rw [natToChars_unfold]
  by_cases h : n < 10 <;> simp [h]

theorem natToChars_foldl (n : Nat) :
    (natToChars n).foldl (fun a c => a * 10 + (c.toNat - 48)) 0 = n := by
  induction n using Nat.strong_induction_on with
  | _ n ih =>
    rw [natToChars_unfold]
    by_cases h : n < 10
    · rw [if_pos h]
      simp [(digitChar_facts n h).2]
    · rw [if_neg h]
      rw [List.foldl_append]
      rw [ih (n / 10) (by omega)]
      simp [(digitChar_facts (n % 10) (by omega)).2]
      omega

theorem takeWhile_append_all {α : Type} (p : α → Bool) (l rest : List α)
    (hl : ∀ c ∈ l, p c = true)
    (hr : ∀ c, rest.head? = some c → p c = false) :
    (l ++ rest).takeWhile p = l ∧ (l ++ rest).dropWhile p = rest := by
  induction l with
  | nil =>
    simp only [List.nil_append]
    cases rest with
    | nil => simp
    | cons r rs =>
      have := hr r rfl
      simp [List.takeWhile_cons, List.dropWhile_cons, this]
  | cons a l ih =>
    have ha := hl a (by simp)
    have hrec := ih (fun c hc => hl c (by simp [hc]))
    simp [List.takeWhile_cons, List.dropWhile_cons, ha, hrec.1, hrec.2]

theorem parseNat_dump (n : Nat) (rest : List Char)
    (hr : ∀ c, rest.head? = some c → c.isDigit = false) :
    parseNat (natToChars n ++ rest) = some (n, rest) := by
  have hall : ∀ c ∈ natToChars n, (fun c => c.isDigit) c = true :=
    fun c hc => natToChars_all_digits n c hc
  obtain ⟨ht, hd⟩ := takeWhile_append_all (fun c => c.isDigit) (natToChars n) rest hall hr
  unfold parseNat
  simp only [ht, hd]
  rw [if_neg (by simp [natToChars_ne_nil])]
  rw [natToChars_foldl]

/-! ## Round-trip lemmas: string escaping -/

theorem isDigit_ne {c : Char} (h : c.isDigit = true) {d : Char}
    (hd : d.isDigit = false) : c ≠ d := by
  intro he
  subst he
  rw [h] at hd
  cases hd

theorem hexVal_hexDigitOf : ∀ m, m < 16 → hexVal (hexDigitOf m) = some m := by
  decide

theorem dumpChar_length_pos (c : Char) : 0 < (dumpChar c).length := by
  unfold dumpChar
  split_ifs <;> simp [hexEscape]

theorem escChars_length_ge (s : List Char) : s.length ≤ (escChars s).length := by
  induction s with
  | nil => simp [escChars]
  | cons c cs ih =>
    have := dumpChar_length_pos c
    simp only [escChars, List.length_append, List.length_cons]
    omega

theorem parseStrBodyAux_esc (s : List Char) :
    ∀ (fuel : Nat) (rest : List Char), s.length + 1 ≤ fuel →
      parseStrBodyAux fuel (escChars s ++ '"' :: rest) = some (s, rest) := by
  induction s with
  | nil =>
    intro fuel rest h
    cases fuel with
    | zero => omega
    | succ f => simp [escChars, parseStrBodyAux]
  | cons c s ih =>
    intro fuel rest h
    cases fuel with
    | zero => omega
    | succ f =>
      have hih := ih f rest (by simp at h; omega)
      show parseStrBodyAux (f + 1) ((dumpChar c ++ escChars s) ++ '"' :: rest)
            = some (c :: s, rest)
      rw [List.append_assoc]
      by_cases h1 : c = '"'
      · subst h1
        have hc : dumpChar '"' = ['\\', '"'] := by decide
        rw [hc]
        simp [parseStrBodyAux, readEsc, unescapeChar, hih]
      · by_cases h2 : c = '\\'
        · subst h2
          have hc : dumpChar '\\' = ['\\', '\\'] := by decide
          rw [hc]
          simp [parseStrBodyAux, readEsc, unescapeChar, hih]
        · by_cases h3 : c = Char.ofNat 8
          · subst h3
            have hc : dumpChar (Char.ofNat 8) = ['\\', 'b'] := by decide
            rw [hc]
            simp [parseStrBodyAux, readEsc, unescapeChar, hih]
          · by_cases h4 : c = '\t'
            · subst h4
              have hc : dumpChar '\t' = ['\\', 't'] := by decide
              rw [hc]
              simp [parseStrBodyAux, readEsc, unescapeChar, hih]
            · by_cases h5 : c = '\n'
              · subst h5
                have hc : dumpChar '\n' = ['\\', 'n'] := by decide
                rw [hc]
                simp [parseStrBodyAux, readEsc, unescapeChar, hih]
              · by_cases h6 : c = Char.ofNat 12
                · subst h6
                  have hc : dumpChar (Char.ofNat 12) = ['\\', 'f'] := by decide
                  rw [hc]
                  simp [parseStrBodyAux, readEsc, unescapeChar, hih]
                · by_cases h7 : c = '\r'
                  · subst h7
                    have hc : dumpChar '\r' = ['\\', 'r'] := by decide
                    rw [hc]
                    simp [parseStrBodyAux, readEsc, unescapeChar, hih]
                  · by_cases h8 : c.toNat < 32
                    · have hc : dumpChar c = hexEscape c.toNat := by
                        unfold dumpChar
                        rw [if_neg h1, if_neg h2, if_neg h3, if_neg h4, if_neg h5,
                            if_neg h6, if_neg h7, if_pos h8]
                      rw [hc]
                      have hx1 : hexVal (hexDigitOf (c.toNat / 16)) = some (c.toNat / 16) :=
                        hexVal_hexDigitOf (c.toNat / 16) (by omega)
                      have hx2 : hexVal (hexDigitOf (c.toNat % 16)) = some (c.toNat % 16) :=
                        hexVal_hexDigitOf (c.toNat % 16) (by omega)
                      simp [parseStrBodyAux, readEsc, hexEscape, hx1, hx2, hih, Char.ofNat_toNat,
                            show hexVal '0' = some 0 from by decide,
                            show ((0 * 16 + 0) * 16 + c.toNat / 16) * 16 + c.toNat % 16
                                = c.toNat from by omega,
                            show (c.toNat / 16) * 16 + c.toNat % 16 = c.toNat from by omega]
                    · have hc : dumpChar c = [c] := by
                        unfold dumpChar
                        rw [if_neg h1, if_neg h2, if_neg h3, if_neg h4, if_neg h5,
                            if_neg h6, if_neg h7, if_neg h8]
                      rw [hc]
                      simp [parseStrBodyAux, h1, h2, hih]

theorem parseStrBody_esc (s rest : List Char) :
    parseStrBody (escChars s ++ '"' :: rest) = some (s, rest) := by
  unfold parseStrBody
  apply parseStrBodyAux_esc
  have h1 := escChars_length_ge s
  simp only [List.length_append, List.length_cons]
  omega

/-! ## Round-trip lemmas: primitives -/

theorem parsePrim_dump (p : JPrim) (rest : List Char)
    (hr : ∀ c0, rest.head? = some c0 → c0.isDigit = false) :
    parsePrim (dumpPrimChars p ++ rest) = some (p, rest) := by
  cases p with
  | null =>
    have hd : dumpPrimChars JPrim.null = 'n' :: 'u' :: 'l' :: 'l' :: [] := rfl
    rw [hd]
    simp [parsePrim, dropLit]
  | bool b =>
    cases b
    · have hd : dumpPrimChars (JPrim.bool false) = 'f' :: 'a' :: 'l' :: 's' :: 'e' :: [] := rfl
      rw [hd]
      simp [parsePrim, dropLit]
    · have hd : dumpPrimChars (JPrim.bool true) = 't' :: 'r' :: 'u' :: 'e' :: [] := rfl
      rw [hd]
      simp [parsePrim, dropLit]
  | str s =>
    have hassoc : (('"' :: (escChars s.data ++ ['"'])) ++ rest)
        = '"' :: (escChars s.data ++ '"' :: rest) := by simp
    show parsePrim (('"' :: (escChars s.data ++ ['"'])) ++ rest) = _
    rw [hassoc]
    simp [parsePrim, parseStrBody_esc]
  | int n =>
    by_cases hneg : n < 0
    · have hd : dumpPrimChars (JPrim.int n) = '-' :: natToChars n.natAbs := by
        simp [dumpPrimChars, intToChars, hneg]
      rw [hd]
      have hparse := parseNat_dump n.natAbs rest hr
      simp [parsePrim, hparse]
      rw [abs_of_neg hneg, neg_neg]
    · have hd : dumpPrimChars (JPrim.int n) = natToChars n.toNat := by
        simp [dumpPrimChars, intToChars, hneg]
      rw [hd]
      cases hnat : natToChars n.toNat with
      | nil => exact absurd hnat (natToChars_ne_nil n.toNat)
      | cons d ds =>
        have hdig : d.isDigit = true :=
          natToChars_all_digits n.toNat d (by rw [hnat]; simp)
        have h1 : d ≠ '"' := isDigit_ne hdig (by decide)
        have h2 : d ≠ 'n' := isDigit_ne hdig (by decide)
        have h3 : d ≠ 't' := isDigit_ne hdig (by decide)
        have h4 : d ≠ 'f' := isDigit_ne hdig (by decide)
        have h5 : d ≠ '-' := isDigit_ne hdig (by decide)
        have hparse := parseNat_dump n.toNat rest hr
        rw [hnat] at hparse
        have hval : ((n.toNat : Nat) : Int) = n := Int.toNat_of_nonneg (by omega)
        show parsePrim ((d :: ds) ++ rest) = _
        simp only [List.cons_append]
        simp [parsePrim, h1, h2, h3, h4, h5]
        exact ⟨n.toNat, hparse, hval⟩

/-! ## Round-trip lemmas: whitespace and token shapes -/

theorem skipWs_cons_of_ws {c : Char} (h : isWsChar c = true) (t : List Char) :
    skipWs (c :: t) = skipWs t := by
  simp [skipWs, List.dropWhile_cons, h]

theorem skipWs_cons_of_not_ws {c : Char} (h : isWsChar c = false) (t : List Char) :
    skipWs (c :: t) = c :: t := by
  simp [skipWs, List.dropWhile_cons, h]

theorem isWsChar_of_digit {c : Char} (h : c.isDigit = true) : isWsChar c = false := by
  have h1 : (c == ' ') = false := beq_eq_false_iff_ne.mpr (isDigit_ne h (by decide))
  have h2 : (c == '\n') = false := beq_eq_false_iff_ne.mpr (isDigit_ne h (by decide))
  have h3 : (c == '\t') = false := beq_eq_false_iff_ne.mpr (isDigit_ne h (by decide))
  have h4 : (c == '\r') = false := beq_eq_false_iff_ne.mpr (isDigit_ne h (by decide))
  simp [isWsChar, h1, h2, h3, h4]

theorem dumpPrim_head (p : JPrim) :
    ∃ c cs, dumpPrimChars p = c :: cs ∧ isWsChar c = false ∧ c ≠ ']' ∧ c ≠ '\x7d' := by
  cases p with
  | null => refine ⟨'n', _, rfl, ?_, ?_, ?_⟩ <;> decide
  | bool b =>
    cases b
    · refine ⟨'f', _, rfl, ?_, ?_, ?_⟩ <;> decide
    · refine ⟨'t', _, rfl, ?_, ?_, ?_⟩ <;> decide
  | str s => refine ⟨'"', _, rfl, ?_, ?_, ?_⟩ <;> decide
  | int n =>
    by_cases hneg : n < 0
    · refine ⟨'-', natToChars n.natAbs, ?_, by decide, by decide, by decide⟩
      simp [dumpPrimChars, intToChars, hneg]
    · cases hnat : natToChars n.toNat with
      | nil => exact absurd hnat (natToChars_ne_nil n.toNat)
      | cons d ds =>
        have hdig : d.isDigit = true :=
          natToChars_all_digits n.toNat d (by rw [hnat]; simp)
        refine ⟨d, ds, ?_, isWsChar_of_digit hdig, isDigit_ne hdig (by decide),
                isDigit_ne hdig (by decide)⟩
        simp [dumpPrimChars, intToChars, hneg, hnat]

theorem dumpArrItems_cons (x : JPrim) (xs : List JPrim) :
    ∃ t, dumpArrItems (x :: xs) = dumpPrimChars x ++ t := by
  cases xs with
  | nil => exact ⟨[], by simp [dumpArrItems]⟩
  | cons y ys =>
    exact ⟨',' :: '\n' :: ' ' :: ' ' :: dumpArrItems (y :: ys), rfl⟩

theorem dumpArrItems_shape (x : JPrim) (xs : List JPrim) :
    ∃ c cs, dumpArrItems (x :: xs) = c :: cs ∧ isWsChar c = false ∧ c ≠ ']' := by
  obtain ⟨t, ht⟩ := dumpArrItems_cons x xs
  obtain ⟨c, cs, hp, hws, hne, _⟩ := dumpPrim_head x
  exact ⟨c, cs ++ t, by simp [ht, hp], hws, hne⟩

theorem dumpObjItems_cons (kv : String × JPrim) (kvs : List (String × JPrim)) :
    ∃ t, dumpObjItems (kv :: kvs) = dumpEntry kv.1 kv.2 ++ t := by
  cases kvs with
  | nil => exact ⟨[], by simp [dumpObjItems]⟩
  | cons kv2 kvs2 =>
    exact ⟨',' :: '\n' :: ' ' :: ' ' :: dumpObjItems (kv2 :: kvs2), rfl⟩

theorem dumpObjItems_shape (kv : String × JPrim) (kvs : List (String × JPrim)) :
    ∃ cs, dumpObjItems (kv :: kvs) = '"' :: cs := by
  obtain ⟨t, ht⟩ := dumpObjItems_cons kv kvs
  exact ⟨(escChars kv.1.data ++ ['"']) ++ ':' :: ' ' :: dumpPrimChars kv.2 ++ t,
         by simp [ht, dumpEntry]⟩

theorem dumpPrim_length_pos (p : JPrim) : 0 < (dumpPrimChars p).length := by
  obtain ⟨c, cs, hp, _, _, _⟩ := dumpPrim_head p
  simp [hp]

theorem dumpArrItems_length_ge (xs : List JPrim) :
    xs.length ≤ (dumpArrItems xs).length := by
  induction xs with
  | nil => simp [dumpArrItems]
  | cons x xs ih =>
    cases xs with
    | nil =>
      have := dumpPrim_length_pos x
      simp [dumpArrItems]
      omega
    | cons y ys =>
      have h1 := dumpPrim_length_pos x
      show (x :: y :: ys).length ≤ (dumpPrimChars x ++ ',' :: '\n' :: ' ' :: ' ' ::
        dumpArrItems (y :: ys)).length
      simp only [List.length_append, List.length_cons]
      simp only [List.length_cons] at ih
      omega

theorem dumpObjItems_length_ge (kvs : List (String × JPrim)) :
    kvs.length ≤ (dumpObjItems kvs).length := by
  induction kvs with
  | nil => simp [dumpObjItems]
  | cons kv kvs ih =>
    cases kvs with
    | nil => simp [dumpObjItems, dumpEntry]
    | cons kv2 kvs2 =>
      show (kv :: kv2 :: kvs2).length ≤ (dumpEntry kv.1 kv.2 ++ ',' :: '\n' :: ' ' ::
        ' ' :: dumpObjItems (kv2 :: kvs2)).length
      simp only [List.length_append, List.length_cons, dumpEntry]
      simp only [List.length_cons] at ih
      omega

/-! ## Round-trip lemmas: item lists -/

theorem head_not_digit_cons {c : Char} (h : c.isDigit = false) (t : List Char) :
    ∀ c0, (c :: t).head? = some c0 → c0.isDigit = false := by
  intro c0 h0
  simp at h0
  subst h0
  exact h

theorem parseItemsA_dump :
    ∀ (xs : List JPrim) (x : JPrim) (fuel : Nat) (rest : List Char),
      xs.length + 1 ≤ fuel →
      parseItemsA fuel (dumpArrItems (x :: xs) ++ '\n' :: ']' :: rest)
        = some (x :: xs, rest) := by
  intro xs
  induction xs with
  | nil =>
    intro x fuel rest h
    cases fuel with
    | zero => omega
    | succ f =>
      have hp := parsePrim_dump x ('\n' :: ']' :: rest)
        (head_not_digit_cons (by decide) _)
      have hskip : skipWs ('\n' :: ']' :: rest) = ']' :: rest := by
        rw [skipWs_cons_of_ws (by decide), skipWs_cons_of_not_ws (by decide)]
      show parseItemsA (f + 1) (dumpPrimChars x ++ '\n' :: ']' :: rest)
            = some ([x], rest)
      simp only [parseItemsA, hp, hskip]
      simp
  | cons y ys ih =>
    intro x fuel rest h
    cases fuel with
    | zero => simp at h
    | succ f =>
      have hp := parsePrim_dump x
        (',' :: '\n' :: ' ' :: ' ' :: (dumpArrItems (y :: ys) ++ '\n' :: ']' :: rest))
        (head_not_digit_cons (by decide) _)
      obtain ⟨c1, cs1, hshape, hws1, hne1⟩ := dumpArrItems_shape y ys
      have hskip1 : skipWs (',' :: '\n' :: ' ' :: ' ' ::
            (dumpArrItems (y :: ys) ++ '\n' :: ']' :: rest))
          = ',' :: '\n' :: ' ' :: ' ' ::
            (dumpArrItems (y :: ys) ++ '\n' :: ']' :: rest) :=
        skipWs_cons_of_not_ws (by decide) _
      have hskip2 : skipWs ('\n' :: ' ' :: ' ' ::
            (dumpArrItems (y :: ys) ++ '\n' :: ']' :: rest))
          = dumpArrItems (y :: ys) ++ '\n' :: ']' :: rest := by
        rw [skipWs_cons_of_ws (by decide), skipWs_cons_of_ws (by decide),
            skipWs_cons_of_ws (by decide), hshape, List.cons_append,
            skipWs_cons_of_not_ws hws1]
      have hih := ih y f rest (by simp at h ⊢; omega)
      show parseItemsA (f + 1) ((dumpPrimChars x ++ ',' :: '\n' :: ' ' :: ' ' ::
            dumpArrItems (y :: ys)) ++ '\n' :: ']' :: rest) = _
      rw [List.append_assoc]
      simp only [List.cons_append]
      simp only [parseItemsA, hp, hskip1, hskip2, hih]
      simp

theorem parseItemsO_dump :
    ∀ (kvs : List (String × JPrim)) (kv : String × JPrim) (fuel : Nat)
      (rest : List Char),
      kvs.length + 1 ≤ fuel →
      parseItemsO fuel (dumpObjItems (kv :: kvs) ++ '\n' :: '\x7d' :: rest)
        = some (kv :: kvs, rest) := by
  intro kvs
  induction kvs with
  | nil =>
    intro kv fuel rest h
    cases fuel with
    | zero => omega
    | succ f =>
      have hentry : dumpEntry kv.1 kv.2 ++ '\n' :: '\x7d' :: rest
          = '"' :: (escChars kv.1.data ++ '"' ::
              (':' :: ' ' :: (dumpPrimChars kv.2 ++ '\n' :: '\x7d' :: rest))) := by
        simp [dumpEntry]
      have hstr := parseStrBody_esc kv.1.data
        (':' :: ' ' :: (dumpPrimChars kv.2 ++ '\n' :: '\x7d' :: rest))
      have hskipc : skipWs (':' :: ' ' ::
            (dumpPrimChars kv.2 ++ '\n' :: '\x7d' :: rest))
          = ':' :: ' ' :: (dumpPrimChars kv.2 ++ '\n' :: '\x7d' :: rest) :=
        skipWs_cons_of_not_ws (by decide) _
      obtain ⟨cv, csv, hpv, hwsv, _, _⟩ := dumpPrim_head kv.2
      have hskipv : skipWs (' ' :: (dumpPrimChars kv.2 ++ '\n' :: '\x7d' :: rest))
          = dumpPrimChars kv.2 ++ '\n' :: '\x7d' :: rest := by
        rw [skipWs_cons_of_ws (by decide), hpv, List.cons_append,
            skipWs_cons_of_not_ws hwsv, ← List.cons_append, ← hpv]
      have hp := parsePrim_dump kv.2 ('\n' :: '\x7d' :: rest)
        (head_not_digit_cons (by decide) _)
      have hskipe : skipWs ('\n' :: '\x7d' :: rest) = '\x7d' :: rest := by
        rw [skipWs_cons_of_ws (by decide), skipWs_cons_of_not_ws (by decide)]
      show parseItemsO (f + 1) (dumpEntry kv.1 kv.2 ++ '\n' :: '\x7d' :: rest)
            = some ([kv], rest)
      rw [hentry]
      simp only [parseItemsO, hstr, hskipc, hskipv, hp, hskipe]
      simp
  | cons kv2 kvs2 ih =>
    intro kv fuel rest h
    cases fuel with
    | zero => simp at h
    | succ f =>
      have hobj : dumpObjItems (kv :: kv2 :: kvs2) ++ '\n' :: '\x7d' :: rest
          = dumpEntry kv.1 kv.2 ++ (',' :: '\n' :: ' ' :: ' ' ::
              (dumpObjItems (kv2 :: kvs2) ++ '\n' :: '\x7d' :: rest)) := by
        show (dumpEntry kv.1 kv.2 ++ ',' :: '\n' :: ' ' :: ' ' ::
              dumpObjItems (kv2 :: kvs2)) ++ '\n' :: '\x7d' :: rest = _
        rw [List.append_assoc]
        simp only [List.cons_append]
      have hentry : dumpEntry kv.1 kv.2 ++ (',' :: '\n' :: ' ' :: ' ' ::
            (dumpObjItems (kv2 :: kvs2) ++ '\n' :: '\x7d' :: rest))
          = '"' :: (escChars kv.1.data ++ '"' ::
              (':' :: ' ' :: (dumpPrimChars kv.2 ++ ',' :: '\n' :: ' ' :: ' ' ::
                (dumpObjItems (kv2 :: kvs2) ++ '\n' :: '\x7d' :: rest)))) := by
        simp [dumpEntry]
      have hstr := parseStrBody_esc kv.1.data
        (':' :: ' ' :: (dumpPrimChars kv.2 ++ ',' :: '\n' :: ' ' :: ' ' ::
          (dumpObjItems (kv2 :: kvs2) ++ '\n' :: '\x7d' :: rest)))
      have hskipc : skipWs (':' :: ' ' :: (dumpPrimChars kv.2 ++ ',' :: '\n' ::
            ' ' :: ' ' :: (dumpObjItems (kv2 :: kvs2) ++ '\n' :: '\x7d' :: rest)))
          = ':' :: ' ' :: (dumpPrimChars kv.2 ++ ',' :: '\n' :: ' ' :: ' ' ::
            (dumpObjItems (kv2 :: kvs2) ++ '\n' :: '\x7d' :: rest)) :=
        skipWs_cons_of_not_ws (by decide) _
      obtain ⟨cv, csv, hpv, hwsv, _, _⟩ := dumpPrim_head kv.2
      have hskipv : skipWs (' ' :: (dumpPrimChars kv.2 ++ ',' :: '\n' :: ' ' ::
            ' ' :: (dumpObjItems (kv2 :: kvs2) ++ '\n' :: '\x7d' :: rest)))
          = dumpPrimChars kv.2 ++ ',' :: '\n' :: ' ' :: ' ' ::
            (dumpObjItems (kv2 :: kvs2) ++ '\n' :: '\x7d' :: rest) := by
        rw [skipWs_cons_of_ws (by decide), hpv, List.cons_append,
            skipWs_cons_of_not_ws hwsv, ← List.cons_append, ← hpv]
      have hp := parsePrim_dump kv.2 (',' :: '\n' :: ' ' :: ' ' ::
          (dumpObjItems (kv2 :: kvs2) ++ '\n' :: '\x7d' :: rest))
        (head_not_digit_cons (by decide) _)
      have hskips : skipWs (',' :: '\n' :: ' ' :: ' ' ::
            (dumpObjItems (kv2 :: kvs2) ++ '\n' :: '\x7d' :: rest))
          = ',' :: '\n' :: ' ' :: ' ' ::
            (dumpObjItems (kv2 :: kvs2) ++ '\n' :: '\x7d' :: rest) :=
        skipWs_cons_of_not_ws (by decide) _
      obtain ⟨cs2shape, hshape2⟩ := dumpObjItems_shape kv2 kvs2
      have hskipn : skipWs ('\n' :: ' ' :: ' ' ::
            (dumpObjItems (kv2 :: kvs2) ++ '\n' :: '\x7d' :: rest))
          = dumpObjItems (kv2 :: kvs2) ++ '\n' :: '\x7d' :: rest := by
        rw [skipWs_cons_of_ws (by decide), skipWs_cons_of_ws (by decide),
            skipWs_cons_of_ws (by decide), hshape2, List.cons_append,
            skipWs_cons_of_not_ws (by decide)]
      have hih := ih kv2 f rest (by simp at h ⊢; omega)
      rw [hobj, hentry]
      simp only [parseItemsO, hstr, hskipc, hskipv, hp, hskips, hskipn, hih]
      simp

/-! ## Round-trip lemmas: documents -/

theorem dictInsert_append (acc : List (String × JPrim)) (k : String) (v : JPrim)
    (h : ∀ kv ∈ acc, kv.1 ≠ k) : dictInsert acc k v = acc ++ [(k, v)] := by
  induction acc with
  | nil => rfl
  | cons kv0 rest ih =>
    have hne : kv0.1 ≠ k := h kv0 (by simp)
    show dictInsert (kv0 :: rest) k v = kv0 :: rest ++ [(k, v)]
    cases kv0 with
    | mk k0 v0 =>
      simp only [dictInsert]
      rw [if_neg hne]
      rw [ih (fun kv hkv => h kv (by simp [hkv]))]
      simp

theorem foldl_dictInsert (pairs : List (String × JPrim)) :
    ∀ acc : List (String × JPrim),
      (∀ kv ∈ pairs, ∀ kv2 ∈ acc, kv2.1 ≠ kv.1) →
      (pairs.map Prod.fst).Nodup →
      pairs.foldl (fun acc kv => dictInsert acc kv.1 kv.2) acc = acc ++ pairs := by
  induction pairs with
  | nil => intro acc _ _; simp
  | cons kv pairs ih =>
    intro acc hdisj hnodup
    have hins : dictInsert acc kv.1 kv.2 = acc ++ [(kv.1, kv.2)] :=
      dictInsert_append acc kv.1 kv.2 (fun kv2 hkv2 => hdisj kv (by simp) kv2 hkv2)
    have hnodup2 : (pairs.map Prod.fst).Nodup := by
      simp only [List.map_cons, List.nodup_cons] at hnodup
      exact hnodup.2
    have hhead : kv.1 ∉ pairs.map Prod.fst := by
      simp only [List.map_cons, List.nodup_cons] at hnodup
      exact hnodup.1
    have hdisj2 : ∀ kv3 ∈ pairs, ∀ kv2 ∈ acc ++ [(kv.1, kv.2)], kv2.1 ≠ kv3.1 := by
      intro kv3 hkv3 kv2 hkv2
      rcases List.mem_append.mp hkv2 with hmem | hmem
      · exact hdisj kv3 (by simp [hkv3]) kv2 hmem
      · have : kv2 = (kv.1, kv.2) := by simpa using hmem
        rw [this]
        intro heq
        exact hhead (heq ▸ List.mem_map.mpr ⟨kv3, hkv3, rfl⟩)
    show List.foldl (fun acc kv => dictInsert acc kv.1 kv.2)
          (dictInsert acc kv.1 kv.2) pairs = acc ++ kv :: pairs
    rw [hins, ih (acc ++ [(kv.1, kv.2)]) hdisj2 hnodup2]
    simp

theorem buildDict_nodup (pairs : List (String × JPrim))
    (h : (pairs.map Prod.fst).Nodup) : buildDict pairs = pairs := by
  unfold buildDict
  rw [foldl_dictInsert pairs [] (by simp) h]
  simp

theorem parseDocChars_dump_arr (xs : List JPrim) :
    parseDocChars (dumpDocChars (JDoc.arr xs)) = some (JDoc.arr xs, []) := by
  cases xs with
  | nil => rfl
  | cons x xs =>
    obtain ⟨c1, cs1, hshape, hws1, hne1⟩ := dumpArrItems_shape x xs
    have hskip0 : skipWs ('[' :: '\n' :: ' ' :: ' ' ::
          (dumpArrItems (x :: xs) ++ ['\n', ']']))
        = '[' :: '\n' :: ' ' :: ' ' :: (dumpArrItems (x :: xs) ++ ['\n', ']']) :=
      skipWs_cons_of_not_ws (by decide) _
    have hskip1 : skipWs ('\n' :: ' ' :: ' ' ::
          (dumpArrItems (x :: xs) ++ ['\n', ']']))
        = c1 :: (cs1 ++ ['\n', ']']) := by
      rw [skipWs_cons_of_ws (by decide), skipWs_cons_of_ws (by decide),
          skipWs_cons_of_ws (by decide), hshape, List.cons_append,
          skipWs_cons_of_not_ws hws1]
    have hlen : xs.length + 1 ≤ (c1 :: (cs1 ++ ['\n', ']'])).length := by
      have h1 := dumpArrItems_length_ge (x :: xs)
      rw [hshape] at h1
      simp only [List.length_cons, List.length_append] at h1 ⊢
      omega
    have hitems := parseItemsA_dump xs x (c1 :: (cs1 ++ ['\n', ']'])).length [] hlen
    rw [hshape] at hitems
    simp only [List.cons_append] at hitems
    show parseDocChars ('[' :: '\n' :: ' ' :: ' ' ::
          (dumpArrItems (x :: xs) ++ ['\n', ']'])) = _
    simp only [parseDocChars, hskip0, hskip1]
    simp only [eq_self_iff_true, if_true, hne1, if_false]
    simp only [hitems]
    simp

theorem parseDocChars_dump_obj (kvs : List (String × JPrim)) :
    parseDocChars (dumpDocChars (JDoc.obj kvs))
      = some (JDoc.obj (buildDict kvs), []) := by
  cases kvs with
  | nil => rfl
  | cons kv kvs =>
    obtain ⟨cs1, hshape⟩ := dumpObjItems_shape kv kvs
    have hskip0 : skipWs ('\x7b' :: '\n' :: ' ' :: ' ' ::
          (dumpObjItems (kv :: kvs) ++ ['\n', '\x7d']))
        = '\x7b' :: '\n' :: ' ' :: ' ' ::
          (dumpObjItems (kv :: kvs) ++ ['\n', '\x7d']) :=
      skipWs_cons_of_not_ws (by decide) _
    have hskip1 : skipWs ('\n' :: ' ' :: ' ' ::
          (dumpObjItems (kv :: kvs) ++ ['\n', '\x7d']))
        = '"' :: (cs1 ++ ['\n', '\x7d']) := by
      rw [skipWs_cons_of_ws (by decide), skipWs_cons_of_ws (by decide),
          skipWs_cons_of_ws (by decide), hshape, List.cons_append,
          skipWs_cons_of_not_ws (by decide)]
    have hlen : kvs.length + 1 ≤ ('"' :: (cs1 ++ ['\n', '\x7d'])).length := by
      have h1 := dumpObjItems_length_ge (kv :: kvs)
      rw [hshape] at h1
      simp only [List.length_cons, List.length_append] at h1 ⊢
      omega
    have hitems := parseItemsO_dump kvs kv ('"' :: (cs1 ++ ['\n', '\x7d'])).length [] hlen
    rw [hshape] at hitems
    simp only [List.cons_append] at hitems
    show parseDocChars ('\x7b' :: '\n' :: ' ' :: ' ' ::
          (dumpObjItems (kv :: kvs) ++ ['\n', '\x7d'])) = _
    simp only [parseDocChars, hskip0, hskip1]
    rw [if_neg (by decide)]
    simp only [eq_self_iff_true, if_true, if_neg (show ('"' : Char) ≠ '\x7d' from by decide)]
    simp only [hitems]
    simp

/-- Predicate on the claim's data: object keys are pairwise distinct, as the
keys of a real Python dict always are (an array has no key constraint). -/
def docKeysNodup : JDoc → Prop
  | .arr _ => True
  | .obj kvs => (kvs.map Prod.fst).Nodup

theorem parseJson_dumpJson (d : JDoc) (h : docKeysNodup d) :
    parseJson (dumpJson d) = some (docToPyVal d) := by
  cases d with
  | arr xs =>
    unfold parseJson dumpJson
    rw [show (String.mk (dumpDocChars (JDoc.arr xs))).data
          = dumpDocChars (JDoc.arr xs) from rfl]
    rw [parseDocChars_dump_arr]
    rfl
  | obj kvs =>
    unfold parseJson dumpJson
    rw [show (String.mk (dumpDocChars (JDoc.obj kvs))).data
          = dumpDocChars (JDoc.obj kvs) from rfl]
    rw [parseDocChars_dump_obj]
    rw [buildDict_nodup kvs h]
    rfl

/-! ## Claims about the generic loader -/

/-- Claim C6: `load_json` returns the parsed document when the file exists
and parses, and returns `none` (never raising) when the path is missing, the
JSON is malformed, or any other I/O failure occurs. -/
theorem claim_C6_load_json (parse : String → Option PyVal) :
    (load_json ReadRes.missing parse = Option.none)
    ∧ (load_json ReadRes.ioError parse = Option.none)
    ∧ (∀ contents, parse contents = Option.none →
        load_json (ReadRes.ok contents) parse = Option.none)
    ∧ (∀ contents doc, parse contents = some doc →
        load_json (ReadRes.ok contents) parse = some doc) :=
  ⟨rfl, rfl, fun _ h => h, fun _ _ h => h⟩

/-- Witness for claim C6, instantiating the parser with the `json.load`
model: a missing file, an I/O error, malformed JSON and a well-formed
document each behave as claimed. -/
theorem claim_C6_witness :
    (parseJson "[ oops" = Option.none
      ∧ load_json (ReadRes.ok "[ oops") parseJson = Option.none)
    ∧ (parseJson "[]" = some (PyVal.list [])
      ∧ load_json (ReadRes.ok "[]") parseJson = some (PyVal.list []))
    ∧ load_json ReadRes.missing parseJson = Option.none
    ∧ load_json ReadRes.ioError parseJson = Option.none := by
  have h := claim_C6_load_json parseJson
  have hbad : parseJson "[ oops" = Option.none := rfl
  have hok : parseJson "[]" = some (PyVal.list []) := rfl
  exact ⟨⟨hbad, h.2.2.1 _ hbad⟩, ⟨hok, h.2.2.2 _ _ hok⟩, h.1, h.2.1⟩

/-- Claim C7: for every JSON-serializable mapping or sequence of primitives,
`save_json` succeeds and a subsequent `load_json` of the written contents
returns a value equal to the saved data (write-then-read round-trip). -/
theorem claim_C7_roundtrip (d : JDoc) (h : docKeysNodup d) :
    (save_json d).2 = true
    ∧ load_json (ReadRes.ok (save_json d).1) parseJson = some (docToPyVal d) :=
  ⟨rfl, parseJson_dumpJson d h⟩

/-- Witness for claim C7 at the mapping used by the repository's own
round-trip test (`{"name": "Test", "value": 123}`) and at a small array. -/
theorem claim_C7_witness :
    (docKeysNodup (JDoc.obj [("name", JPrim.str "Test"), ("value", JPrim.int 123)])
      ∧ ((save_json (JDoc.obj [("name", JPrim.str "Test"), ("value", JPrim.int 123)])).2 = true
        ∧ load_json
            (ReadRes.ok (save_json (JDoc.obj [("name", JPrim.str "Test"),
              ("value", JPrim.int 123)])).1) parseJson
          = some (docToPyVal (JDoc.obj [("name", JPrim.str "Test"),
              ("value", JPrim.int 123)]))))
    ∧ (docKeysNodup (JDoc.arr [JPrim.int 1, JPrim.null, JPrim.str "x"])
      ∧ ((save_json (JDoc.arr [JPrim.int 1, JPrim.null, JPrim.str "x"])).2 = true
        ∧ load_json
            (ReadRes.ok (save_json (JDoc.arr [JPrim.int 1, JPrim.null,
              JPrim.str "x"])).1) parseJson
          = some (docToPyVal (JDoc.arr [JPrim.int 1, JPrim.null, JPrim.str "x"])))) := by
  constructor
  · have hnodup : docKeysNodup
        (JDoc.obj [("name", JPrim.str "Test"), ("value", JPrim.int 123)]) := by
      simp [docKeysNodup]
    exact ⟨hnodup, claim_C7_roundtrip _ hnodup⟩
  · have hnodup : docKeysNodup (JDoc.arr [JPrim.int 1, JPrim.null, JPrim.str "x"]) :=
      trivial
    exact ⟨hnodup, claim_C7_roundtrip _ hnodup⟩
